import Mathlib

/-!
Shallow embedding of `src/salary_detection.py` (class `SalaryDetector`).

Modelling choices:
* A pandas DataFrame row becomes a `Transaction` record; a DataFrame becomes a
  `List Transaction` (row order = DataFrame row order).
* `ob_transaction_timestamp` is modelled as an `Int`, the number of seconds
  since the epoch (pandas datetimes have sub-day resolution, which matters for
  `.diff().dt.days`).
* `amount` is a rational number (exact arithmetic for median and tolerance).
* `merchant_name` is `Option String`; `groupby("merchant_name", dropna=False)`
  puts the null merchants into their own single group, modelled by the key
  `none`.
* `sort_values` is modelled by insertion sort on the timestamp; pandas'
  default quicksort is not stable, so the relative order of equal timestamps
  is implementation-defined there — the embedding fixes one admissible order.
* pandas `Series.diff().dt.days` is the floor of the elapsed time measured in
  whole 24-hour periods: `Timedelta.days` of `t_b - t_a`, i.e.
  `Int.fdiv (b.ts - a.ts) 86400`.
* `drop_duplicates(subset=["ob_transaction_id"])` keeps the first row of each
  id, modelled by `dedupById`.
* `save_salary_transactions` wraps its database work in
  `try: ... except Exception: print(...)`, so the call always returns
  normally; the database is abstracted as a function `sink` that may fail
  (`Except`), and the method's observable outcome is its returned value.
-/

namespace SalaryDetection

structure Transaction where
  ob_transaction_id : String
  customer_id : Int
  merchant_name : Option String
  amount : ℚ
  ob_transaction_type : String
  ob_transaction_description : String
  ob_transaction_timestamp : Int
  deriving DecidableEq, Repr

/-- The day gap the source computes at line 102:
`grp["ob_transaction_timestamp"].diff().dt.days`, i.e. the `days` field of the
timedelta, which is the floor of the elapsed time in 24-hour units. -/
def dayGap (a b : Transaction) : Int :=
  Int.fdiv (b.ob_transaction_timestamp - a.ob_transaction_timestamp) 86400

/-- The day gap in the spec's words ("calendar-day difference, not elapsed
hours; ... difference of their dates, independent of time of day"): difference
of the calendar days (epoch days) on which the two timestamps fall. -/
def calendarDayGap (a b : Transaction) : Int :=
  Int.fdiv b.ob_transaction_timestamp 86400 - Int.fdiv a.ob_transaction_timestamp 86400

/-- Line 121: `grp["amount"].between(lower_bound, upper_bound)` (inclusive). -/
def amount_in_range (lower upper : ℚ) (t : Transaction) : Prop :=
  lower ≤ t.amount ∧ t.amount ≤ upper

instance (lower upper : ℚ) (t : Transaction) : Decidable (amount_in_range lower upper t) :=
  inferInstanceAs (Decidable (_ ∧ _))

/-- Ordering of rows by `ob_transaction_timestamp` (pandas `sort_values`). -/
def tsLe (a b : Transaction) : Prop :=
  a.ob_transaction_timestamp ≤ b.ob_transaction_timestamp

instance : DecidableRel tsLe := fun a b =>
  inferInstanceAs (Decidable (a.ob_transaction_timestamp ≤ b.ob_transaction_timestamp))

instance : IsTotal Transaction tsLe :=
  ⟨fun a b => Int.le_total a.ob_transaction_timestamp b.ob_transaction_timestamp⟩

instance : IsTrans Transaction tsLe :=
  ⟨fun _ _ _ h h' => Int.le_trans h h'⟩

/-- Line 88 / 97 / 183: `df.sort_values("ob_transaction_timestamp")`. -/
def sortByTs (l : List Transaction) : List Transaction :=
  l.insertionSort tsLe

/-- pandas `median`: sort the values; middle element for odd length, mean of
the two middle elements for even length. -/
def medianQ (xs : List ℚ) : ℚ :=
  let s := xs.insertionSort (· ≤ ·)
  let n := s.length
  if n % 2 = 1 then s.getD (n / 2) 0
  else (s.getD (n / 2 - 1) 0 + s.getD (n / 2) 0) / 2

/-- First-occurrence deduplication of a list of keys, as produced by pandas
`unique()` / the set of group keys. `seen` accumulates the keys already kept. -/
def uniqueAux {α : Type} [DecidableEq α] (seen : List α) : List α → List α
  | [] => []
  | k :: rest =>
      if k ∈ seen then uniqueAux seen rest
      else k :: uniqueAux (k :: seen) rest

def uniqueList {α : Type} [DecidableEq α] (l : List α) : List α :=
  uniqueAux [] l

/-- Lines 186-188: `drop_duplicates(subset=["ob_transaction_id"])`, keeping the
first row bearing each id. `seen` accumulates ids already kept. -/
def dedupByIdAux (seen : List String) : List Transaction → List Transaction
  | [] => []
  | t :: rest =>
      if t.ob_transaction_id ∈ seen then dedupByIdAux seen rest
      else t :: dedupByIdAux (t.ob_transaction_id :: seen) rest

def dedupById (l : List Transaction) : List Transaction :=
  dedupByIdAux [] l

/-- Lines 70-74: the customer / CREDIT / minimum-amount filter. -/
def filterCustomer (df : List Transaction) (customer_id : Int) (min_amount : ℚ) :
    List Transaction :=
  df.filter fun t =>
    t.customer_id == customer_id
      && t.ob_transaction_type == "CREDIT"
      && decide (min_amount ≤ t.amount)

/-- Lines 105-107 / 111: number of consecutive pairs of the group whose day
gap lies in the interval window (the first row's `days_since_last` is NaN and
never counts). -/
def countValidIntervals (gap : Transaction → Transaction → Int) (lo hi : Int) :
    List Transaction → Nat
  | a :: b :: rest =>
      (if lo ≤ gap a b ∧ gap a b ≤ hi then 1 else 0)
        + countValidIntervals gap lo hi (b :: rest)
  | _ => 0

/-- Lines 139-169: the streak walk. `prev` is the previous row of the group
(`candidate_indices[i-1]`), `streak` the current streak buffer, `acc` the
`valid_streak_indices` accumulated so far, and the remaining argument the rows
not yet visited. On a break (or at the end) the streak is emitted into `acc`
iff its length is at least `min_occurrences`. -/
def walk (gap : Transaction → Transaction → Int) (lo hi : Int) (lower upper : ℚ)
    (min_occurrences : Nat) (prev : Transaction) (streak acc : List Transaction) :
    List Transaction → List Transaction
  | [] => if min_occurrences ≤ streak.length then acc ++ streak else acc
  | t :: rest =>
      if lo ≤ gap prev t ∧ gap prev t ≤ hi then
        if amount_in_range lower upper t ∧ amount_in_range lower upper prev then
          walk gap lo hi lower upper min_occurrences t (streak ++ [t]) acc rest
        else
          walk gap lo hi lower upper min_occurrences t [t]
            (if min_occurrences ≤ streak.length then acc ++ streak else acc) rest
      else
        walk gap lo hi lower upper min_occurrences t [t]
          (if min_occurrences ≤ streak.length then acc ++ streak else acc) rest

/-- Lines 95-177: processing of one merchant group `g` (already in timestamp
order). Returns the rows of `g` that belong to an accepted streak. -/
def processGroup (gap : Transaction → Transaction → Int) (lo hi : Int) (tol : ℚ)
    (min_occurrences : Nat) (g : List Transaction) : List Transaction :=
  if g.length < min_occurrences then []
  else if countValidIntervals gap lo hi g < min_occurrences - 1 then []
  else
    match g with
    | [] => []
    | h :: rest =>
        walk gap lo hi (medianQ ((h :: rest).map (·.amount)) * (1 - tol))
          (medianQ ((h :: rest).map (·.amount)) * (1 + tol))
          min_occurrences h [h] [] rest

/-- The merchant partition of the (filtered, sorted) customer frame with key
`k`: the rows `groupby("merchant_name", dropna=False)` assigns to `k`. -/
def partitionOf (df : List Transaction) (customer_id : Int) (min_amount : ℚ)
    (k : Option String) : List Transaction :=
  (sortByTs (filterCustomer df customer_id min_amount)).filter
    fun t => t.merchant_name == k

/-- Lower edge of the amount band of partition `k` (median × (1 − tol)). -/
def bandLower (df : List Transaction) (customer_id : Int) (min_amount : ℚ) (tol : ℚ)
    (k : Option String) : ℚ :=
  medianQ ((partitionOf df customer_id min_amount k).map (·.amount)) * (1 - tol)

/-- Upper edge of the amount band of partition `k` (median × (1 + tol)). -/
def bandUpper (df : List Transaction) (customer_id : Int) (min_amount : ℚ) (tol : ℚ)
    (k : Option String) : ℚ :=
  medianQ ((partitionOf df customer_id min_amount k).map (·.amount)) * (1 + tol)

/-- Lines 47-203: `SalaryDetector.detect_monthly_salary`, generic in the gap
function (the source uses `dayGap`; the spec's words give `calendarDayGap`). -/
def detectGeneric (gap : Transaction → Transaction → Int) (df : List Transaction)
    (customer_id : Int) (min_amount : ℚ) (lo hi : Int) (tol : ℚ)
    (min_occurrences : Nat) : List Transaction :=
  let customer_df := filterCustomer df customer_id min_amount
  if customer_df.isEmpty then []
  else
    let sorted := sortByTs customer_df
    let keys := uniqueList (sorted.map (·.merchant_name))
    let flat :=
      (keys.map fun k =>
        processGroup gap lo hi tol min_occurrences
          (sorted.filter fun t => t.merchant_name == k)).flatten
    if flat.isEmpty then []
    else dedupById (sortByTs flat)

/-- The detector `SalaryDetector.detect_monthly_salary` as the source computes
it: the day gap is `diff().dt.days`, i.e. `dayGap`. -/
def detect_monthly_salary (df : List Transaction) (customer_id : Int)
    (min_amount : ℚ) (lo hi : Int) (tol : ℚ) (min_occurrences : Nat) :
    List Transaction :=
  detectGeneric dayGap df customer_id min_amount lo hi tol min_occurrences

/-- The variant that follows the spec's words for the day gap (calendar-day
difference); used only to compare against `detect_monthly_salary`. -/
def detect_monthly_salary_calendar (df : List Transaction) (customer_id : Int)
    (min_amount : ℚ) (lo hi : Int) (tol : ℚ) (min_occurrences : Nat) :
    List Transaction :=
  detectGeneric calendarDayGap df customer_id min_amount lo hi tol min_occurrences

/-- Lines 257-279: `SalaryDetector.process_customer_salary`, with the batch
returned by `get_credit_transactions` abstracted as the argument `df`. It
iterates the distinct customer ids of the batch (`unique()`, first-appearance
order), runs the detector with default configuration for each, and
concatenates the per-customer results. -/
def process_customer_salary (df : List Transaction) : List Transaction :=
  (uniqueList (df.map (·.customer_id))).flatMap fun cid =>
    detect_monthly_salary df cid 70000 25 35 (1/10) 3

/-- Lines 205-255: `SalaryDetector.save_salary_transactions`. The database
work (create table + batched upsert) is abstracted as `sink`, which may fail.
The method's `try/except` catches every failure, prints it, and returns
normally, so the caller always observes a normal return (`Except.ok ()`). -/
def save_salary_transactions (sink : List Transaction → Except String Unit)
    (df : List Transaction) : Except String Unit :=
  if df.isEmpty then Except.ok ()
  else
    match sink df with
    | Except.ok _ => Except.ok ()
    | Except.error _e => Except.ok ()

end SalaryDetection

namespace SalaryDetection


/-! ### Concrete transactions used in examples and witnesses -/

def mkTx (id : String) (cid : Int) (m : Option String) (amt : ℚ) (ts : Int) : Transaction :=
  ⟨id, cid, m, amt, "CREDIT", "salary", ts⟩

def ex1 : Transaction := mkTx "a" 1 (some "ACME CORP") 75000 0
def ex2 : Transaction := mkTx "b" 1 (some "ACME CORP") 76000 (30 * 86400)
def ex3 : Transaction := mkTx "c" 1 (some "ACME CORP") 74500 (60 * 86400)
def ex4 : Transaction := mkTx "d" 1 (some "ACME CORP") 75500 (100 * 86400)

/-! ### Basic lemmas about the list helpers -/

theorem mem_filterCustomer {df : List Transaction} {cid : Int} {ma : ℚ}
    {t : Transaction} :
    t ∈ filterCustomer df cid ma ↔
      t ∈ df ∧ t.customer_id = cid ∧ t.ob_transaction_type = "CREDIT" ∧ ma ≤ t.amount := by
  simp [filterCustomer, List.mem_filter, and_assoc]

theorem mem_sortByTs {l : List Transaction} {t : Transaction} :
    t ∈ sortByTs l ↔ t ∈ l :=
  List.mem_insertionSort tsLe

theorem sortByTs_sorted (l : List Transaction) : (sortByTs l).Pairwise tsLe :=
  List.sorted_insertionSort tsLe l

theorem dedupByIdAux_sublist (seen : List String) :
    ∀ l : List Transaction, List.Sublist (dedupByIdAux seen l) l
  | [] => List.Sublist.refl []
  | t :: rest => by
      unfold dedupByIdAux
      by_cases h : t.ob_transaction_id ∈ seen
      · simp only [if_pos h]
        exact (dedupByIdAux_sublist seen rest).cons t
      · simp only [if_neg h]
        exact (dedupByIdAux_sublist (t.ob_transaction_id :: seen) rest).cons₂ t

theorem dedupById_sublist (l : List Transaction) : List.Sublist (dedupById l) l :=
  dedupByIdAux_sublist [] l

theorem mem_map_id_dedupByIdAux (seen : List String) (i : String) :
    ∀ l : List Transaction,
      (i ∈ (dedupByIdAux seen l).map (·.ob_transaction_id) ↔
        i ∈ l.map (·.ob_transaction_id) ∧ i ∉ seen)
  | [] => by simp [dedupByIdAux]
  | t :: rest => by
      unfold dedupByIdAux
      by_cases h : t.ob_transaction_id ∈ seen
      · simp only [if_pos h, mem_map_id_dedupByIdAux seen i rest, List.map_cons,
          List.mem_cons]
        constructor
        · exact fun ⟨h1, h2⟩ => ⟨Or.inr h1, h2⟩
        · rintro ⟨h1 | h1, h2⟩
          · exact absurd (h1 ▸ h) h2
          · exact ⟨h1, h2⟩
      · simp only [if_neg h, List.map_cons, List.mem_cons,
          mem_map_id_dedupByIdAux (t.ob_transaction_id :: seen) i rest]
        by_cases he : i = t.ob_transaction_id
        · simp [he, h]
        · tauto

theorem mem_map_id_dedupById (l : List Transaction) (i : String) :
    i ∈ (dedupById l).map (·.ob_transaction_id) ↔ i ∈ l.map (·.ob_transaction_id) := by
  simpa [dedupById] using mem_map_id_dedupByIdAux [] i l

theorem nodup_map_id_dedupByIdAux (seen : List String) :
    ∀ l : List Transaction,
      ((dedupByIdAux seen l).map (·.ob_transaction_id)).Nodup
  | [] => by simp [dedupByIdAux]
  | t :: rest => by
      unfold dedupByIdAux
      by_cases h : t.ob_transaction_id ∈ seen
      · simp only [if_pos h]
        exact nodup_map_id_dedupByIdAux seen rest
      · simp only [if_neg h, List.map_cons, List.nodup_cons]
        refine ⟨fun hmem => ?_, nodup_map_id_dedupByIdAux _ rest⟩
        exact ((mem_map_id_dedupByIdAux _ _ rest).mp hmem).2 (List.mem_cons_self _ _)

theorem nodup_map_id_dedupById (l : List Transaction) :
    ((dedupById l).map (·.ob_transaction_id)).Nodup :=
  nodup_map_id_dedupByIdAux [] l

theorem mem_uniqueAux {α : Type} [DecidableEq α] (seen : List α) (a : α) :
    ∀ l : List α, a ∈ uniqueAux seen l ↔ a ∈ l ∧ a ∉ seen
  | [] => by simp [uniqueAux]
  | k :: rest => by
      unfold uniqueAux
      by_cases h : k ∈ seen
      · simp only [if_pos h, mem_uniqueAux seen a rest, List.mem_cons]
        constructor
        · exact fun ⟨h1, h2⟩ => ⟨Or.inr h1, h2⟩
        · rintro ⟨h1 | h1, h2⟩
          · exact absurd (h1 ▸ h) h2
          · exact ⟨h1, h2⟩
      · simp only [if_neg h, List.mem_cons, mem_uniqueAux (k :: seen) a rest]
        by_cases he : a = k
        · simp [he, h]
        · tauto

theorem mem_uniqueList {α : Type} [DecidableEq α] (l : List α) (a : α) :
    a ∈ uniqueList l ↔ a ∈ l := by
  simpa [uniqueList] using mem_uniqueAux [] a l

theorem nodup_uniqueAux {α : Type} [DecidableEq α] (seen : List α) :
    ∀ l : List α, (uniqueAux seen l).Nodup
  | [] => by simp [uniqueAux]
  | k :: rest => by
      unfold uniqueAux
      by_cases h : k ∈ seen
      · simp only [if_pos h]
        exact nodup_uniqueAux seen rest
      · simp only [if_neg h, List.nodup_cons]
        refine ⟨fun hmem => ?_, nodup_uniqueAux _ rest⟩
        exact ((mem_uniqueAux _ _ rest).mp hmem).2 (List.mem_cons_self _ _)

theorem nodup_uniqueList {α : Type} [DecidableEq α] (l : List α) :
    (uniqueList l).Nodup :=
  nodup_uniqueAux [] l

/-! ### Membership lemmas for the streak walk and the detector -/

/-- A member of an emitted accumulator `if m ≤ streak.length then acc ++ streak
else acc` comes from `acc` or from `streak`. -/
theorem mem_emit {m : Nat} {acc streak : List Transaction} {x : Transaction}
    (h : x ∈ (if m ≤ streak.length then acc ++ streak else acc)) :
    x ∈ acc ∨ x ∈ streak := by
  split at h
  · exact List.mem_append.mp h
  · exact Or.inl h

theorem mem_walk (gap : Transaction → Transaction → Int) (lo hi : Int)
    (lower upper : ℚ) (m : Nat) :
    ∀ (rest : List Transaction) (prev : Transaction) (streak acc : List Transaction)
      (x : Transaction), x ∈ walk gap lo hi lower upper m prev streak acc rest →
      x ∈ acc ∨ x ∈ streak ∨ x ∈ rest
  | [], prev, streak, acc, x => by
      intro h
      unfold walk at h
      rcases mem_emit h with h | h
      · exact Or.inl h
      · exact Or.inr (Or.inl h)
  | t :: rest, prev, streak, acc, x => by
      intro h
      unfold walk at h
      split at h
      · split at h
        · rcases mem_walk gap lo hi lower upper m rest t (streak ++ [t]) acc x h with
            h | h | h
          · exact Or.inl h
          · rcases List.mem_append.mp h with h | h
            · exact Or.inr (Or.inl h)
            · exact Or.inr (Or.inr (List.mem_cons.mpr (Or.inl (List.mem_singleton.mp h))))
          · exact Or.inr (Or.inr (List.mem_cons_of_mem _ h))
        · rcases mem_walk gap lo hi lower upper m rest t [t] _ x h with h | h | h
          · rcases mem_emit h with h | h
            · exact Or.inl h
            · exact Or.inr (Or.inl h)
          · exact Or.inr (Or.inr (List.mem_cons.mpr (Or.inl (List.mem_singleton.mp h))))
          · exact Or.inr (Or.inr (List.mem_cons_of_mem _ h))
      · rcases mem_walk gap lo hi lower upper m rest t [t] _ x h with h | h | h
        · rcases mem_emit h with h | h
          · exact Or.inl h
          · exact Or.inr (Or.inl h)
        · exact Or.inr (Or.inr (List.mem_cons.mpr (Or.inl (List.mem_singleton.mp h))))
        · exact Or.inr (Or.inr (List.mem_cons_of_mem _ h))

theorem mem_processGroup {gap : Transaction → Transaction → Int} {lo hi : Int}
    {tol : ℚ} {m : Nat} {g : List Transaction} {x : Transaction}
    (h : x ∈ processGroup gap lo hi tol m g) : x ∈ g := by
  unfold processGroup at h
  split at h
  · simp at h
  split at h
  · simp at h
  cases g with
  | nil => simp at h
  | cons hd rest =>
      rcases mem_walk _ _ _ _ _ _ rest hd [hd] [] x h with h | h | h
      · simp at h
      · exact List.mem_cons.mpr (Or.inl (List.mem_singleton.mp h))
      · exact List.mem_cons_of_mem _ h

theorem mem_detectGeneric {gap : Transaction → Transaction → Int}
    {df : List Transaction} {cid : Int} {ma : ℚ} {lo hi : Int} {tol : ℚ} {m : Nat}
    {t : Transaction} (h : t ∈ detectGeneric gap df cid ma lo hi tol m) :
    ∃ k : Option String, t ∈ processGroup gap lo hi tol m (partitionOf df cid ma k) := by
  simp only [detectGeneric] at h
  split at h
  · simp at h
  split at h
  · simp at h
  have h1 := mem_sortByTs.mp ((dedupById_sublist _).subset h)
  rw [List.mem_flatten] at h1
  obtain ⟨l, hl, hmem⟩ := h1
  rw [List.mem_map] at hl
  obtain ⟨k, _, rfl⟩ := hl
  exact ⟨k, hmem⟩

theorem mem_partitionOf {df : List Transaction} {cid : Int} {ma : ℚ}
    {k : Option String} {t : Transaction} :
    t ∈ partitionOf df cid ma k ↔ t ∈ filterCustomer df cid ma ∧ t.merchant_name = k := by
  unfold partitionOf
  rw [List.mem_filter]
  simp [mem_sortByTs]

/-- Anything the detector returns passed the customer / CREDIT / amount filter. -/
theorem detect_subset_filter {gap : Transaction → Transaction → Int}
    {df : List Transaction} {cid : Int} {ma : ℚ} {lo hi : Int} {tol : ℚ} {m : Nat}
    {t : Transaction} (h : t ∈ detectGeneric gap df cid ma lo hi tol m) :
    t ∈ filterCustomer df cid ma := by
  obtain ⟨k, hk⟩ := mem_detectGeneric h
  exact (mem_partitionOf.mp (mem_processGroup hk)).1

/-! ### Soundness of the streak walk: every emitted row sits in an accepted
streak (contiguous run, length at least `min_occurrences`, every adjacent pair
has a day gap in the window and both amounts inside the band). -/

/-- The condition the walk checks before extending the current streak from `a`
to its successor `b` (lines 145-154). -/
def pairOk (gap : Transaction → Transaction → Int) (lo hi : Int) (lower upper : ℚ)
    (a b : Transaction) : Prop :=
  lo ≤ gap a b ∧ gap a b ≤ hi ∧
    amount_in_range lower upper a ∧ amount_in_range lower upper b

/-- The list `r` is an accepted streak of the group `g`: a contiguous run of
`g` of length at least `m` each of whose adjacent pairs satisfies `pairOk`. -/
def acceptedStreak (gap : Transaction → Transaction → Int) (lo hi : Int)
    (lower upper : ℚ) (m : Nat) (g r : List Transaction) : Prop :=
  (∃ p s, p ++ r ++ s = g) ∧ m ≤ r.length ∧ r.Chain' (pairOk gap lo hi lower upper)

theorem walk_good (gap : Transaction → Transaction → Int) (lo hi : Int)
    (lower upper : ℚ) (m : Nat) (g : List Transaction) :
    ∀ (rest : List Transaction) (prev : Transaction) (streak acc pre : List Transaction)
      (x : Transaction),
      pre ++ streak ++ rest = g →
      streak.getLast? = some prev →
      streak.Chain' (pairOk gap lo hi lower upper) →
      (∀ u ∈ acc, ∃ r, acceptedStreak gap lo hi lower upper m g r ∧ u ∈ r) →
      x ∈ walk gap lo hi lower upper m prev streak acc rest →
      ∃ r, acceptedStreak gap lo hi lower upper m g r ∧ x ∈ r
  | [], prev, streak, acc, pre, x => by
      intro hg hlast hchain hacc h
      unfold walk at h
      by_cases hm : m ≤ streak.length
      · rw [if_pos hm] at h
        rcases List.mem_append.mp h with h | h
        · exact hacc x h
        · exact ⟨streak, ⟨⟨pre, [], by simpa using hg⟩, hm, hchain⟩, h⟩
      · rw [if_neg hm] at h
        exact hacc x h
  | t :: rest, prev, streak, acc, pre, x => by
      intro hg hlast hchain hacc h
      unfold walk at h
      split at h
      · rename_i hgap
        split at h
        · rename_i hamt
          refine walk_good gap lo hi lower upper m g rest t (streak ++ [t]) acc pre x
            ?_ (List.getLast?_concat _) ?_ hacc h
          · rw [← hg]
            simp
          · refine hchain.append (List.chain'_singleton t) ?_
            intro a ha b hb
            rw [hlast, Option.mem_some_iff] at ha
            simp only [List.head?_cons, Option.mem_some_iff] at hb
            subst ha
            subst hb
            exact ⟨hgap.1, hgap.2, hamt.2, hamt.1⟩
        · refine walk_good gap lo hi lower upper m g rest t [t] _ (pre ++ streak) x
            ?_ rfl (List.chain'_singleton t) ?_ h
          · rw [← hg]
            simp
          · intro u hu
            by_cases hm : m ≤ streak.length
            · rw [if_pos hm] at hu
              rcases List.mem_append.mp hu with hu | hu
              · exact hacc u hu
              · exact ⟨streak, ⟨⟨pre, t :: rest, hg⟩, hm, hchain⟩, hu⟩
            · rw [if_neg hm] at hu
              exact hacc u hu
      · refine walk_good gap lo hi lower upper m g rest t [t] _ (pre ++ streak) x
          ?_ rfl (List.chain'_singleton t) ?_ h
        · rw [← hg]
          simp
        · intro u hu
          by_cases hm : m ≤ streak.length
          · rw [if_pos hm] at hu
            rcases List.mem_append.mp hu with hu | hu
            · exact hacc u hu
            · exact ⟨streak, ⟨⟨pre, t :: rest, hg⟩, hm, hchain⟩, hu⟩
          · rw [if_neg hm] at hu
            exact hacc u hu

theorem processGroup_good {gap : Transaction → Transaction → Int} {lo hi : Int}
    {tol : ℚ} {m : Nat} {g : List Transaction} {x : Transaction}
    (h : x ∈ processGroup gap lo hi tol m g) :
    ∃ r, acceptedStreak gap lo hi (medianQ (g.map (·.amount)) * (1 - tol))
        (medianQ (g.map (·.amount)) * (1 + tol)) m g r ∧ x ∈ r := by
  unfold processGroup at h
  split at h
  · simp at h
  split at h
  · simp at h
  cases g with
  | nil => simp at h
  | cons hd rest =>
      exact walk_good _ _ _ _ _ _ _ rest hd [hd] [] [] x (by simp) (by simp)
        (List.chain'_singleton hd) (by simp) h

/-- Evaluation of the detector on the running 4-transaction example
(gaps 30, 30, 40 days; amounts inside the 10 % band around the median
75250): the first three rows form the unique accepted streak. -/
theorem detectExample_eq :
    detect_monthly_salary [ex1, ex2, ex3, ex4] 1 70000 25 35 (1/10) 3
      = [ex1, ex2, ex3] := by
  with_unfolding_all rfl

def oth : Transaction := mkTx "e" 2 (some "OTHER EMPLOYER") 80000 (10 * 86400)

/-- Same example inside a batch that also carries another customer's row. -/
theorem detectExampleMulti_eq :
    detect_monthly_salary [ex1, oth, ex2, ex3, ex4] 1 70000 25 35 (1/10) 3
      = [ex1, ex2, ex3] := by
  with_unfolding_all rfl

/-- C1: under the default configuration every transaction returned by
`detect_monthly_salary` belongs to a contiguous run of at least 3 transactions
of its counterparty partition in which every adjacent pair has a day gap
inside [25, 35] and both members of the pair have amounts inside
[median·(1−0.10), median·(1+0.10)] of that partition's median amount. -/
theorem detect_default_member_in_accepted_streak (df : List Transaction)
    (cid : Int) (t : Transaction)
    (h : t ∈ detect_monthly_salary df cid 70000 25 35 (1/10) 3) :
    ∃ r : List Transaction,
      (∃ p s, p ++ r ++ s = partitionOf df cid 70000 t.merchant_name) ∧
      3 ≤ r.length ∧ t ∈ r ∧
      r.Chain' (pairOk dayGap 25 35
        (bandLower df cid 70000 (1/10) t.merchant_name)
        (bandUpper df cid 70000 (1/10) t.merchant_name)) := by
  obtain ⟨k, hk⟩ := mem_detectGeneric h
  have hkm : t.merchant_name = k := (mem_partitionOf.mp (mem_processGroup hk)).2
  subst hkm
  obtain ⟨r, ⟨hrun, hlen, hchain⟩, hmem⟩ := processGroup_good hk
  exact ⟨r, hrun, hlen, hmem, hchain⟩

/-- Witness for C1 at the concrete example batch. -/
theorem detect_default_member_in_accepted_streak_witness :
    ex1 ∈ detect_monthly_salary [ex1, ex2, ex3, ex4] 1 70000 25 35 (1/10) 3 ∧
    ∃ r : List Transaction,
      (∃ p s, p ++ r ++ s =
        partitionOf [ex1, ex2, ex3, ex4] 1 70000 ex1.merchant_name) ∧
      3 ≤ r.length ∧ ex1 ∈ r ∧
      r.Chain' (pairOk dayGap 25 35
        (bandLower [ex1, ex2, ex3, ex4] 1 70000 (1/10) ex1.merchant_name)
        (bandUpper [ex1, ex2, ex3, ex4] 1 70000 (1/10) ex1.merchant_name)) := by
  have hmem : ex1 ∈ detect_monthly_salary [ex1, ex2, ex3, ex4] 1 70000 25 35 (1/10) 3 := by
    rw [detectExample_eq]
    exact List.mem_cons_self _ _
  exact ⟨hmem, detect_default_member_in_accepted_streak _ _ _ hmem⟩

/-- C3: every row returned by `detect_monthly_salary` has transaction type
CREDIT and amount at least the configured minimum (for any input frame,
customer and configuration). -/
theorem detect_rows_credit_and_min_amount (df : List Transaction) (cid : Int)
    (ma : ℚ) (lo hi : Int) (tol : ℚ) (m : Nat) (t : Transaction)
    (h : t ∈ detect_monthly_salary df cid ma lo hi tol m) :
    t.ob_transaction_type = "CREDIT" ∧ ma ≤ t.amount := by
  have hf := mem_filterCustomer.mp (detect_subset_filter h)
  exact ⟨hf.2.2.1, hf.2.2.2⟩

/-- Witness for C3 at the concrete example batch. -/
theorem detect_rows_credit_and_min_amount_witness :
    ex1 ∈ detect_monthly_salary [ex1, ex2, ex3, ex4] 1 70000 25 35 (1/10) 3 ∧
    ex1.ob_transaction_type = "CREDIT" ∧ (70000 : ℚ) ≤ ex1.amount := by
  have hmem : ex1 ∈ detect_monthly_salary [ex1, ex2, ex3, ex4] 1 70000 25 35 (1/10) 3 := by
    rw [detectExample_eq]
    exact List.mem_cons_self _ _
  exact ⟨hmem, detect_rows_credit_and_min_amount _ _ _ _ _ _ _ _ hmem⟩

/-- C10 (implicit claim): the detector only ever returns rows of the customer
given as argument, even when the input frame carries many customers. -/
theorem detect_restricts_to_customer (df : List Transaction) (cid : Int)
    (ma : ℚ) (lo hi : Int) (tol : ℚ) (m : Nat) (t : Transaction)
    (h : t ∈ detect_monthly_salary df cid ma lo hi tol m) :
    t.customer_id = cid :=
  (mem_filterCustomer.mp (detect_subset_filter h)).2.1

/-- Witness for C10 at a batch containing two customers. -/
theorem detect_restricts_to_customer_witness :
    ex1 ∈ detect_monthly_salary [ex1, oth, ex2, ex3, ex4] 1 70000 25 35 (1/10) 3 ∧
    ex1.customer_id = 1 := by
  have hmem : ex1 ∈ detect_monthly_salary [ex1, oth, ex2, ex3, ex4] 1 70000 25 35 (1/10) 3 := by
    rw [detectExampleMulti_eq]
    exact List.mem_cons_self _ _
  exact ⟨hmem, detect_restricts_to_customer _ _ _ _ _ _ _ _ hmem⟩

/-- C9: the rows returned by `detect_monthly_salary` are in non-decreasing
timestamp order (the source sorts the combined result at line 183 and
`drop_duplicates` only removes rows). -/
theorem detect_sorted_by_timestamp (df : List Transaction) (cid : Int)
    (ma : ℚ) (lo hi : Int) (tol : ℚ) (m : Nat) :
    (detect_monthly_salary df cid ma lo hi tol m).Pairwise
      (fun a b => a.ob_transaction_timestamp ≤ b.ob_transaction_timestamp) := by
  simp only [detect_monthly_salary, detectGeneric]
  split
  · simp
  split
  · simp
  exact List.Pairwise.sublist (dedupById_sublist _) (sortByTs_sorted _)

/-- C7: the detector is a total function that degrades to the empty result:
if the customer / CREDIT / minimum-amount filter leaves nothing it returns
`[]`, and if no partition yields an accepted streak it returns `[]`
(rather than failing). -/
theorem detect_empty_cases (df : List Transaction) (cid : Int) (ma : ℚ)
    (lo hi : Int) (tol : ℚ) (m : Nat) :
    (filterCustomer df cid ma = [] → detect_monthly_salary df cid ma lo hi tol m = []) ∧
    ((∀ k ∈ uniqueList ((sortByTs (filterCustomer df cid ma)).map (·.merchant_name)),
        processGroup dayGap lo hi tol m (partitionOf df cid ma k) = []) →
      detect_monthly_salary df cid ma lo hi tol m = []) := by
  constructor
  · intro hf
    simp only [detect_monthly_salary, detectGeneric]
    rw [hf]
    rfl
  · intro hall
    simp only [detect_monthly_salary, detectGeneric]
    split
    · rfl
    have hflat : ((uniqueList ((sortByTs (filterCustomer df cid ma)).map
          (·.merchant_name))).map fun k =>
            processGroup dayGap lo hi tol m
              ((sortByTs (filterCustomer df cid ma)).filter
                fun t => t.merchant_name == k)).flatten = [] := by
      rw [List.flatten_eq_nil_iff]
      intro l hl
      rw [List.mem_map] at hl
      obtain ⟨k, hk, rfl⟩ := hl
      exact hall k hk
    rw [hflat]
    rfl

/-- Witness for C7: an empty filter result (wrong customer) and a filter
result with no accepted streak (only two occurrences) both give `[]`. -/
theorem detect_empty_cases_witness :
    detect_monthly_salary [ex1] 2 70000 25 35 (1/10) 3 = [] ∧
    detect_monthly_salary [ex1, ex2] 1 70000 25 35 (1/10) 3 = [] := by
  constructor
  · exact (detect_empty_cases [ex1] 2 70000 25 35 (1/10) 3).1 (by with_unfolding_all rfl)
  · refine (detect_empty_cases [ex1, ex2] 1 70000 25 35 (1/10) 3).2 ?_
    intro k hk
    have hkeys : uniqueList ((sortByTs (filterCustomer [ex1, ex2] 1 70000)).map
        (·.merchant_name)) = [some "ACME CORP"] := by
      with_unfolding_all rfl
    rw [hkeys] at hk
    rw [List.mem_singleton] at hk
    subst hk
    with_unfolding_all rfl

/-- C8 (code bug): `save_salary_transactions` catches every sink failure in
its `try/except` and returns normally, so a failed write is reported exactly
like a success — for every sink and frame the call's outcome is `ok`. -/
theorem save_swallows_sink_failure :
    save_salary_transactions (fun _ => Except.error "connection refused") [ex1]
        = Except.ok () ∧
    ∀ (sink : List Transaction → Except String Unit) (df : List Transaction),
      save_salary_transactions sink df = Except.ok () := by
  refine ⟨rfl, ?_⟩
  intro sink df
  unfold save_salary_transactions
  split
  · rfl
  · cases sink df <;> rfl

/-- C6: a concrete input of four credit transactions of one customer from one
counterparty, amounts at least 70000 and all inside the 10 % band around the
partition median, spaced 30, 30 and 40 days apart: the detector with default
configuration returns exactly the first three rows (one accepted streak of
length 3) and excludes the fourth. -/
theorem detect_example_returns_first_three :
    dayGap ex1 ex2 = 30 ∧ dayGap ex2 ex3 = 30 ∧ dayGap ex3 ex4 = 40 ∧
    (∀ t ∈ [ex1, ex2, ex3, ex4],
      t.customer_id = 1 ∧ t.merchant_name = some "ACME CORP" ∧
      t.ob_transaction_type = "CREDIT" ∧ (70000 : ℚ) ≤ t.amount ∧
      amount_in_range
        (bandLower [ex1, ex2, ex3, ex4] 1 70000 (1/10) (some "ACME CORP"))
        (bandUpper [ex1, ex2, ex3, ex4] 1 70000 (1/10) (some "ACME CORP")) t) ∧
    detect_monthly_salary [ex1, ex2, ex3, ex4] 1 70000 25 35 (1/10) 3
      = [ex1, ex2, ex3] ∧
    ex4 ∉ detect_monthly_salary [ex1, ex2, ex3, ex4] 1 70000 25 35 (1/10) 3 := by
  refine ⟨by decide, by decide, by decide, ?_, detectExample_eq, ?_⟩
  · exact of_decide_eq_true (by with_unfolding_all rfl)
  · exact of_decide_eq_true (by with_unfolding_all rfl)

/-! ### C2: the day gap is the floored elapsed time, not the calendar-day
difference. Three same-amount transactions on calendar days 0, 25 and 50, but
placed at 23:00, 01:00 and 00:30: every calendar-day difference is 25 (inside
the window) while every elapsed-time floor is 24 (outside). -/

def cex1 : Transaction := mkTx "x" 1 (some "ACME CORP") 75000 82800
def cex2 : Transaction := mkTx "y" 1 (some "ACME CORP") 75000 (25 * 86400 + 3600)
def cex3 : Transaction := mkTx "z" 1 (some "ACME CORP") 75000 (50 * 86400 + 1800)

/-- C2 counterexample: for the consecutive pair `cex1`, `cex2` of the
partition, the gap the source computes (24) differs from the calendar-day
difference (25); consequently the detector returns nothing on
`[cex1, cex2, cex3]` whereas the calendar-day reading would return all
three rows. -/
theorem dayGap_differs_from_calendar :
    dayGap cex1 cex2 = 24 ∧ calendarDayGap cex1 cex2 = 25 ∧
    dayGap cex2 cex3 = 24 ∧ calendarDayGap cex2 cex3 = 25 ∧
    detect_monthly_salary [cex1, cex2, cex3] 1 70000 25 35 (1/10) 3 = [] ∧
    detect_monthly_salary_calendar [cex1, cex2, cex3] 1 70000 25 35 (1/10) 3
      = [cex1, cex2, cex3] := by
  exact ⟨by decide, by decide, by decide, by decide,
    by with_unfolding_all rfl, by with_unfolding_all rfl⟩

/-- C2 amended: for a time-ordered pair the day gap used by the detector is
the floor of the elapsed time in whole 24-hour periods
(`Timedelta.days`), and it is 0 exactly when less than 24 hours (86400
seconds) elapsed — not the calendar-day difference of the dates. -/
theorem dayGap_is_elapsed_floor (a b : Transaction)
    (h : a.ob_transaction_timestamp ≤ b.ob_transaction_timestamp) :
    dayGap a b =
      (b.ob_transaction_timestamp - a.ob_transaction_timestamp) / 86400 ∧
    (dayGap a b = 0 ↔
      b.ob_transaction_timestamp - a.ob_transaction_timestamp < 86400) := by
  have hd : (0 : Int) ≤ b.ob_transaction_timestamp - a.ob_transaction_timestamp := by
    omega
  have heq : dayGap a b =
      (b.ob_transaction_timestamp - a.ob_transaction_timestamp) / 86400 :=
    Int.fdiv_eq_ediv _ (by norm_num)
  refine ⟨heq, ?_⟩
  rw [heq]
  constructor
  · intro h0
    by_contra hge
    push_neg at hge
    have h1 : (1 : Int) ≤
        (b.ob_transaction_timestamp - a.ob_transaction_timestamp) / 86400 :=
      (Int.le_ediv_iff_mul_le (by norm_num)).mpr (by omega)
    omega
  · intro hlt
    exact Int.ediv_eq_zero_of_lt hd hlt

/-- Witness for the amended C2 at a concrete time-ordered pair. -/
theorem dayGap_is_elapsed_floor_witness :
    cex1.ob_transaction_timestamp ≤ cex2.ob_transaction_timestamp ∧
    (dayGap cex1 cex2 =
      (cex2.ob_transaction_timestamp - cex1.ob_transaction_timestamp) / 86400 ∧
    (dayGap cex1 cex2 = 0 ↔
      cex2.ob_transaction_timestamp - cex1.ob_transaction_timestamp < 86400)) :=
  ⟨by decide, dayGap_is_elapsed_floor cex1 cex2 (by decide)⟩

/-! ### Monotonicity in `min_occurrences` (C5) and deduplication (C4) -/

/-- The two early returns of `detect_monthly_salary` coincide with the main
expression, so the detector always equals the dedup of the sorted union of
the per-partition results. -/
theorem detectGeneric_eq (gap : Transaction → Transaction → Int)
    (df : List Transaction) (cid : Int) (ma : ℚ) (lo hi : Int) (tol : ℚ)
    (m : Nat) :
    detectGeneric gap df cid ma lo hi tol m =
      dedupById (sortByTs
        (((uniqueList ((sortByTs (filterCustomer df cid ma)).map
            (·.merchant_name))).map
          fun k => processGroup gap lo hi tol m (partitionOf df cid ma k)).flatten)) := by
  simp only [detectGeneric]
  split
  · rename_i he
    rw [List.isEmpty_iff] at he
    rw [he]
    rfl
  · split
    · rename_i hf
      rw [List.isEmpty_iff] at hf
      rw [show (((uniqueList ((sortByTs (filterCustomer df cid ma)).map
            (·.merchant_name))).map
          fun k => processGroup gap lo hi tol m (partitionOf df cid ma k)).flatten)
          = ([] : List Transaction) from hf]
      rfl
    · rfl

/-- Emitting a streak under threshold `m₂` into an accumulator included in
another is included in the emission under any smaller threshold `m₁`. -/
theorem emit_sub {m₁ m₂ : Nat} (hm : m₁ ≤ m₂) {streak acc₂ acc₁ : List Transaction}
    (hsub : ∀ u ∈ acc₂, u ∈ acc₁) :
    ∀ u ∈ (if m₂ ≤ streak.length then acc₂ ++ streak else acc₂),
      u ∈ (if m₁ ≤ streak.length then acc₁ ++ streak else acc₁) := by
  intro u hu
  by_cases h2 : m₂ ≤ streak.length
  · rw [if_pos h2] at hu
    rw [if_pos (le_trans hm h2)]
    rcases List.mem_append.mp hu with hu | hu
    · exact List.mem_append.mpr (Or.inl (hsub u hu))
    · exact List.mem_append.mpr (Or.inr hu)
  · rw [if_neg h2] at hu
    by_cases h1 : m₁ ≤ streak.length
    · rw [if_pos h1]
      exact List.mem_append.mpr (Or.inl (hsub u hu))
    · rw [if_neg h1]
      exact hsub u hu

/-- The streak construction does not depend on `min_occurrences`; only the
emission filter does, so lowering the threshold only adds rows. -/
theorem walk_mono (gap : Transaction → Transaction → Int) (lo hi : Int)
    (lower upper : ℚ) {m₁ m₂ : Nat} (hm : m₁ ≤ m₂) :
    ∀ (rest : List Transaction) (prev : Transaction)
      (streak acc₂ acc₁ : List Transaction),
      (∀ u ∈ acc₂, u ∈ acc₁) →
      ∀ x, x ∈ walk gap lo hi lower upper m₂ prev streak acc₂ rest →
        x ∈ walk gap lo hi lower upper m₁ prev streak acc₁ rest
  | [], prev, streak, acc₂, acc₁ => by
      intro hsub x hx
      unfold walk at hx ⊢
      exact emit_sub hm hsub x hx
  | t :: rest, prev, streak, acc₂, acc₁ => by
      intro hsub x hx
      unfold walk at hx ⊢
      by_cases hgap : lo ≤ gap prev t ∧ gap prev t ≤ hi
      · rw [if_pos hgap] at hx ⊢
        by_cases hamt : amount_in_range lower upper t ∧ amount_in_range lower upper prev
        · rw [if_pos hamt] at hx ⊢
          exact walk_mono gap lo hi lower upper hm rest t (streak ++ [t]) acc₂ acc₁
            hsub x hx
        · rw [if_neg hamt] at hx ⊢
          exact walk_mono gap lo hi lower upper hm rest t [t] _ _
            (emit_sub hm hsub) x hx
      · rw [if_neg hgap] at hx ⊢
        exact walk_mono gap lo hi lower upper hm rest t [t] _ _
          (emit_sub hm hsub) x hx

theorem processGroup_mono {gap : Transaction → Transaction → Int} {lo hi : Int}
    {tol : ℚ} {m₁ m₂ : Nat} (hm : m₁ ≤ m₂) {g : List Transaction} {x : Transaction}
    (h : x ∈ processGroup gap lo hi tol m₂ g) :
    x ∈ processGroup gap lo hi tol m₁ g := by
  unfold processGroup at h ⊢
  by_cases h2 : g.length < m₂
  · rw [if_pos h2] at h
    simp at h
  rw [if_neg h2] at h
  have h1 : ¬ g.length < m₁ := by omega
  rw [if_neg h1]
  by_cases hc2 : countValidIntervals gap lo hi g < m₂ - 1
  · rw [if_pos hc2] at h
    simp at h
  rw [if_neg hc2] at h
  have hc1 : ¬ countValidIntervals gap lo hi g < m₁ - 1 := by omega
  rw [if_neg hc1]
  cases g with
  | nil => simp at h
  | cons hd rest =>
      exact walk_mono _ _ _ _ _ hm rest hd [hd] [] [] (by simp) x h

/-- C5: with everything else fixed, the set of transaction ids returned with
minimum occurrences `m₂` is contained in the set returned with any
`m₁ ≤ m₂`: raising `min_occurrences` never adds results. -/
theorem detect_min_occurrences_antitone (df : List Transaction) (cid : Int)
    (ma : ℚ) (lo hi : Int) (tol : ℚ) (m₁ m₂ : Nat) (hm : m₁ ≤ m₂) (i : String)
    (h : i ∈ (detect_monthly_salary df cid ma lo hi tol m₂).map
      (·.ob_transaction_id)) :
    i ∈ (detect_monthly_salary df cid ma lo hi tol m₁).map
      (·.ob_transaction_id) := by
  simp only [detect_monthly_salary, detectGeneric_eq, mem_map_id_dedupById] at h ⊢
  rw [List.mem_map] at h ⊢
  obtain ⟨t, ht, rfl⟩ := h
  refine ⟨t, ?_, rfl⟩
  rw [mem_sortByTs] at ht ⊢
  rw [List.mem_flatten] at ht ⊢
  obtain ⟨l, hl, hmem⟩ := ht
  rw [List.mem_map] at hl
  obtain ⟨k, hk, rfl⟩ := hl
  exact ⟨_, List.mem_map.mpr ⟨k, hk, rfl⟩, processGroup_mono hm hmem⟩

/-- Witness for C5: id "a" is returned with threshold 3, hence with 2. -/
theorem detect_min_occurrences_antitone_witness :
    2 ≤ 3 ∧
    "a" ∈ ((detect_monthly_salary [ex1, ex2, ex3, ex4] 1 70000 25 35 (1/10) 3).map
      (·.ob_transaction_id)) ∧
    "a" ∈ ((detect_monthly_salary [ex1, ex2, ex3, ex4] 1 70000 25 35 (1/10) 2).map
      (·.ob_transaction_id)) := by
  have h : "a" ∈ ((detect_monthly_salary [ex1, ex2, ex3, ex4] 1 70000 25 35
      (1/10) 3).map (·.ob_transaction_id)) := by
    rw [detectExample_eq]
    decide
  exact ⟨by decide, h,
    detect_min_occurrences_antitone _ _ _ _ _ _ 2 3 (by decide) "a" h⟩

/-- A row the detector returns comes from the input frame. -/
theorem mem_detect_mem_df {df : List Transaction} {cid : Int} {ma : ℚ}
    {lo hi : Int} {tol : ℚ} {m : Nat} {t : Transaction}
    (h : t ∈ detect_monthly_salary df cid ma lo hi tol m) : t ∈ df :=
  (mem_filterCustomer.mp (detect_subset_filter h)).1

/-- A row the detector returns bears the customer id it was asked about. -/
theorem detect_customer_eq {df : List Transaction} {cid : Int} {ma : ℚ}
    {lo hi : Int} {tol : ℚ} {m : Nat} {t : Transaction}
    (h : t ∈ detect_monthly_salary df cid ma lo hi tol m) : t.customer_id = cid :=
  (mem_filterCustomer.mp (detect_subset_filter h)).2.1

theorem detect_ids_nodup (df : List Transaction) (cid : Int) (ma : ℚ)
    (lo hi : Int) (tol : ℚ) (m : Nat) :
    ((detect_monthly_salary df cid ma lo hi tol m).map
      (·.ob_transaction_id)).Nodup := by
  simp only [detect_monthly_salary]
  rw [detectGeneric_eq]
  exact nodup_map_id_dedupById _

/-- C4: if the transaction ids of the batch are unique then the detector
returns at most one row per id (for any configuration), and the aggregate
built by `process_customer_salary` never carries two entries with the same
transaction id. -/
theorem dedup_by_transaction_id (df : List Transaction)
    (h : (df.map (·.ob_transaction_id)).Nodup) :
    (∀ (cid : Int) (ma : ℚ) (lo hi : Int) (tol : ℚ) (m : Nat),
        ((detect_monthly_salary df cid ma lo hi tol m).map
          (·.ob_transaction_id)).Nodup) ∧
    ((process_customer_salary df).map (·.ob_transaction_id)).Nodup := by
  refine ⟨fun cid ma lo hi tol m => detect_ids_nodup df cid ma lo hi tol m, ?_⟩
  unfold process_customer_salary
  rw [List.map_flatMap]
  rw [List.nodup_flatMap]
  refine ⟨fun c _ => detect_ids_nodup df c 70000 25 35 (1/10) 3, ?_⟩
  have hnd : (uniqueList (df.map (·.customer_id))).Nodup := nodup_uniqueList _
  refine hnd.imp ?_
  intro a b hab
  intro i hia hib
  rw [List.mem_map] at hia hib
  obtain ⟨t₁, ht₁, hi₁⟩ := hia
  obtain ⟨t₂, ht₂, hi₂⟩ := hib
  have e : t₁ = t₂ :=
    List.inj_on_of_nodup_map h (mem_detect_mem_df ht₁) (mem_detect_mem_df ht₂)
      (by rw [hi₁, hi₂])
  have hc₁ : t₁.customer_id = a := detect_customer_eq ht₁
  have hc₂ : t₂.customer_id = b := detect_customer_eq ht₂
  exact hab (by rw [← hc₁, e, hc₂])

/-- Witness for C4 on a two-customer batch with unique ids. -/
theorem dedup_by_transaction_id_witness :
    ([ex1, oth, ex2, ex3, ex4].map (·.ob_transaction_id)).Nodup ∧
    ((detect_monthly_salary [ex1, oth, ex2, ex3, ex4] 1 70000 25 35 (1/10) 3).map
      (·.ob_transaction_id)).Nodup ∧
    ((process_customer_salary [ex1, oth, ex2, ex3, ex4]).map
      (·.ob_transaction_id)).Nodup := by
  have h : ([ex1, oth, ex2, ex3, ex4].map (·.ob_transaction_id)).Nodup := by decide
  exact ⟨h, (dedup_by_transaction_id _ h).1 1 70000 25 35 (1/10) 3,
    (dedup_by_transaction_id _ h).2⟩
